import Mathlib

/-!
Verification of the TES3MP-Easy configuration reconciler, dependency lookup,
health-check pass and environment checks, shallowly embedded from the Python
sources (`src/tes3mp_easy/client.py`, `deps.py`, `healthcheck.py`,
`checks.py`).

File contents are modelled as `List Char` (the byte/character sequence of the
file); Python's `readlines`/`writelines`, `str.strip`, `str.startswith` and
the anchored regular-expression matches of `_update_single_config` are
embedded as executable functions on character lists.
-/

namespace TES3MPEasy

/-- Characters accepted by Python's `str.strip()` / regex `\s` (whitespace). -/
def isSpace (c : Char) : Bool :=
  c.toNat ∈ [9, 10, 11, 12, 13, 28, 29, 30, 31, 32, 133, 160, 5760,
    8192, 8193, 8194, 8195, 8196, 8197, 8198, 8199, 8200, 8201, 8202,
    8232, 8233, 8239, 8287, 12288]

/-- Python `f.readlines()`: split a character sequence into lines, each line
keeping its trailing newline; a final fragment without a newline is a line of
its own; an empty file yields no lines. -/
def readlines : List Char → List (List Char)
  | [] => []
  | c :: cs =>
    if c = '\n' then ['\n'] :: readlines cs
    else
      match readlines cs with
      | [] => [[c]]
      | l :: ls => (c :: l) :: ls

/-- Right-hand part of Python `str.strip()`: drop trailing whitespace. -/
def rstrip : List Char → List Char
  | [] => []
  | c :: cs =>
    match rstrip cs with
    | [] => if isSpace c then [] else [c]
    | r => c :: r

/-- Python `str.strip()`: drop leading and trailing whitespace. -/
def strip (s : List Char) : List Char :=
  rstrip (s.dropWhile isSpace)

/-- Case-insensitive prefix consumption: if `p` is a prefix of `s` up to
ASCII case, return the remainder of `s`; models the literal part of a
`re.match(..., re.IGNORECASE)` pattern. -/
def dropCi : List Char → List Char → Option (List Char)
  | [], s => some s
  | _ :: _, [] => none
  | a :: ps, b :: ss => if a.toLower = b.toLower then dropCi ps ss else none

/-- Match the regex `^key\s*=\s*` case-insensitively at the start of `s`
(as in `_update_single_config`, client.py lines 65-71) and return the
remainder after the whitespace following `=`. -/
def matchKeyEq (key s : List Char) : Option (List Char) :=
  match dropCi key s with
  | none => none
  | some r =>
    match r.dropWhile isSpace with
    | '=' :: r2 => some (r2.dropWhile isSpace)
    | _ => none

/-- Match the regex `^key\s*=\s*value` case-insensitively at the start of
`s` (`re.match` only anchors at the start, so trailing text is allowed). -/
def matchKeyVal (key value s : List Char) : Bool :=
  match matchKeyEq key s with
  | some rest => (dropCi value rest).isSome
  | none => false

/-- Python's substring test `needle in hay`: `needle` occurs contiguously
in `hay`. -/
def isSubstring (needle : List Char) : List Char → Bool
  | [] => needle.isEmpty
  | c :: t => needle.isPrefixOf (c :: t) || isSubstring needle t

/-- The characters of `data=`. -/
def dataKey : List Char := ['d', 'a', 't', 'a', '=']

/-- The characters of `data="?` (the literal string in the exemption test of
client.py line 62). -/
def dataQQ : List Char := ['d', 'a', 't', 'a', '=', '"', '?']

/-- The characters of `content`. -/
def contentKey : List Char := ['c', 'o', 'n', 't', 'e', 'n', 't']

/-- The characters of `fallback-archive`. -/
def archiveKey : List Char :=
  ['f', 'a', 'l', 'l', 'b', 'a', 'c', 'k', '-', 'a', 'r', 'c', 'h', 'i', 'v', 'e']

/-- The characters of `Morrowind.esm`. -/
def morrowindEsm : List Char :=
  ['M', 'o', 'r', 'r', 'o', 'w', 'i', 'n', 'd', '.', 'e', 's', 'm']

/-- The characters of `Tribunal.esm`. -/
def tribunalEsm : List Char :=
  ['T', 'r', 'i', 'b', 'u', 'n', 'a', 'l', '.', 'e', 's', 'm']

/-- The characters of `Bloodmoon.esm`. -/
def bloodmoonEsm : List Char :=
  ['B', 'l', 'o', 'o', 'd', 'm', 'o', 'o', 'n', '.', 'e', 's', 'm']

/-- The characters of `Morrowind.bsa`. -/
def morrowindBsa : List Char :=
  ['M', 'o', 'r', 'r', 'o', 'w', 'i', 'n', 'd', '.', 'b', 's', 'a']

/-- The characters of `Tribunal.bsa`. -/
def tribunalBsa : List Char :=
  ['T', 'r', 'i', 'b', 'u', 'n', 'a', 'l', '.', 'b', 's', 'a']

/-- The characters of `Bloodmoon.bsa`. -/
def bloodmoonBsa : List Char :=
  ['B', 'l', 'o', 'o', 'd', 'm', 'o', 'o', 'n', '.', 'b', 's', 'a']

/-- The six managed content/archive (key, value) pairs, in the order of the
regex tests of client.py lines 65-71. -/
def managedPairs : List (List Char × List Char) :=
  [(contentKey, morrowindEsm), (contentKey, tribunalEsm), (contentKey, bloodmoonEsm),
   (archiveKey, morrowindBsa), (archiveKey, tribunalBsa), (archiveKey, bloodmoonBsa)]

/-- The filter of client.py lines 59-73 applied to `line.strip()`: `true`
when the line is skipped (a managed line). The `data=` test is a
case-sensitive `startswith` with the `data="?` exemption; the six
content/archive tests are anchored case-insensitive regexes. -/
def isManagedLine (t : List Char) : Bool :=
  (dataKey.isPrefixOf t && !(dataQQ.isPrefixOf t))
  || matchKeyVal contentKey morrowindEsm t
  || matchKeyVal contentKey tribunalEsm t
  || matchKeyVal contentKey bloodmoonEsm t
  || matchKeyVal archiveKey morrowindBsa t
  || matchKeyVal archiveKey tribunalBsa t
  || matchKeyVal archiveKey bloodmoonBsa t

/-- A line survives the filter when its stripped form is not managed. -/
def keepLine (l : List Char) : Bool :=
  !isManagedLine (strip l)

/-- The fresh header line `data="{data_path}"\n` (client.py line 78). -/
def dataHeaderLine (p : List Char) : List Char :=
  dataKey ++ '"' :: (p ++ ['"', '\n'])

/-- The six fixed content/archive header lines (client.py lines 81-88). -/
def contentHeaderLines : List (List Char) :=
  [contentKey ++ '=' :: morrowindEsm ++ ['\n'],
   contentKey ++ '=' :: tribunalEsm ++ ['\n'],
   contentKey ++ '=' :: bloodmoonEsm ++ ['\n'],
   archiveKey ++ '=' :: morrowindBsa ++ ['\n'],
   archiveKey ++ '=' :: tribunalBsa ++ ['\n'],
   archiveKey ++ '=' :: bloodmoonBsa ++ ['\n']]

/-- The header block prepended by `_update_single_config` (lines 77-88):
one data line, plus the six content/archive lines when `include_content`. -/
def headerLines (p : List Char) (includeContent : Bool) : List (List Char) :=
  dataHeaderLine p :: (if includeContent then contentHeaderLines else [])

/-- The config reconciler `_update_single_config` (client.py lines 42-94):
given the current file content (empty when the file is absent or unreadable),
the data path and the `include_content` flag, it returns the content written
back: the header block followed by every original line whose stripped form
does not match the managed-directive filter, in original order. -/
def update_single_config (content : List Char) (p : List Char)
    (includeContent : Bool) : List Char :=
  List.flatten (headerLines p includeContent ++ (readlines content).filter keepLine)

/-- A character list ends with a newline. -/
def endsNl : List Char → Bool
  | [] => false
  | [c] => c = '\n'
  | _ :: c :: cs => endsNl (c :: cs)

/-- A well-formed line: nonempty, with `\n` occurring at most as its final
character — exactly the shape of the elements `readlines` produces. -/
def wfLine (l : List Char) : Bool :=
  !l.isEmpty && l.dropLast.all (fun c => !(c = '\n'))

/-- Every element but the last ends with a newline. -/
def chainClosed : List (List Char) → Bool
  | [] => true
  | [_] => true
  | l :: l2 :: ls => endsNl l && chainClosed (l2 :: ls)

/-- A well-formed line list: every line well formed, every line but the last
newline-terminated. `writelines` of such a list re-reads to the same list. -/
def wfLines (ls : List (List Char)) : Bool :=
  ls.all wfLine && chainClosed ls

/-- A line whose stripped form starts with `data=` (the code's notion of a
data directive, client.py line 62, first conjunct). -/
def isDataDirective (l : List Char) : Bool :=
  dataKey.isPrefixOf (strip l)

/-- A line whose stripped form starts with the literal `data="?` (exempted
from removal by client.py line 62, second conjunct). -/
def isExemptData (l : List Char) : Bool :=
  dataQQ.isPrefixOf (strip l)

/-- A data directive the filter actually removes: starts with `data=` but
not with `data="?`. -/
def isStrictData (l : List Char) : Bool :=
  isDataDirective l && !isExemptData l

/-- The line matches one given managed content/archive (key, value) pair. -/
def matchesManagedPair (kv : List Char × List Char) (l : List Char) : Bool :=
  matchKeyVal kv.1 kv.2 (strip l)

/-- The line matches some pair of the managed content/archive set. -/
def isManagedContentArchive (l : List Char) : Bool :=
  managedPairs.any (fun kv => matchesManagedPair kv l)

/-- The line is a content/archive line of any value: its stripped form
matches `^content\s*=` or `^fallback-archive\s*=` case-insensitively. -/
def isContentOrArchiveKeyed (l : List Char) : Bool :=
  (matchKeyEq contentKey (strip l)).isSome || (matchKeyEq archiveKey (strip l)).isSome

/-! Embedding of `deps.py` (`LIB_TO_PKG` and the package-list construction of
`check_server_dependencies`, lines 68-125). -/

/-- The four package-manager families of deps.py (dnf is reported as
`yum`, lines 85-101). -/
inductive PkgMgr
  | apt
  | yum
  | pacman
  | apk
deriving DecidableEq

def keyLibluajit : List Char :=
  ['l', 'i', 'b', 'l', 'u', 'a', 'j', 'i', 't']

def keyLibboostSystem : List Char :=
  ['l', 'i', 'b', 'b', 'o', 'o', 's', 't', '_', 's', 'y', 's', 't', 'e', 'm']

def keyLibboostFilesystem : List Char :=
  ['l', 'i', 'b', 'b', 'o', 'o', 's', 't', '_', 'f', 'i', 'l', 'e', 's', 'y', 's', 't', 'e', 'm']

def keyLibboostProgramOptions : List Char :=
  ['l', 'i', 'b', 'b', 'o', 'o', 's', 't', '_', 'p', 'r', 'o', 'g', 'r', 'a', 'm', '_',
   'o', 'p', 't', 'i', 'o', 'n', 's']

def keyLibboostIostreams : List Char :=
  ['l', 'i', 'b', 'b', 'o', 'o', 's', 't', '_', 'i', 'o', 's', 't', 'r', 'e', 'a', 'm', 's']

/-- Package names of the `libluajit` row of `LIB_TO_PKG` (deps.py line 77). -/
def pkgsLibluajit : PkgMgr → Option (List Char)
  | .apt => some ['l', 'i', 'b', 'l', 'u', 'a', 'j', 'i', 't', '-', '5', '.', '1', '-', '2']
  | .yum => some ['l', 'u', 'a', 'j', 'i', 't']
  | .pacman => some ['l', 'u', 'a', 'j', 'i', 't']
  | .apk => some ['l', 'u', 'a', 'j', 'i', 't']

/-- Package names of the `libboost_system` row (deps.py line 78). -/
def pkgsLibboostSystem : PkgMgr → Option (List Char)
  | .apt => some ['l', 'i', 'b', 'b', 'o', 'o', 's', 't', '-', 's', 'y', 's', 't', 'e', 'm',
      '1', '.', '7', '4', '.', '0']
  | .yum => some ['b', 'o', 'o', 's', 't', '-', 's', 'y', 's', 't', 'e', 'm']
  | .pacman => some ['b', 'o', 'o', 's', 't', '-', 'l', 'i', 'b', 's']
  | .apk => some ['b', 'o', 'o', 's', 't', '-', 's', 'y', 's', 't', 'e', 'm']

/-- Package names of the `libboost_filesystem` row (deps.py line 79). -/
def pkgsLibboostFilesystem : PkgMgr → Option (List Char)
  | .apt => some ['l', 'i', 'b', 'b', 'o', 'o', 's', 't', '-', 'f', 'i', 'l', 'e', 's', 'y',
      's', 't', 'e', 'm', '1', '.', '7', '4', '.', '0']
  | .yum => some ['b', 'o', 'o', 's', 't', '-', 'f', 'i', 'l', 'e', 's', 'y', 's', 't', 'e', 'm']
  | .pacman => some ['b', 'o', 'o', 's', 't', '-', 'l', 'i', 'b', 's']
  | .apk => some ['b', 'o', 'o', 's', 't', '-', 'f', 'i', 'l', 'e', 's', 'y', 's', 't', 'e', 'm']

/-- Package names of the `libboost_program_options` row (deps.py line 80). -/
def pkgsLibboostProgramOptions : PkgMgr → Option (List Char)
  | .apt => some ['l', 'i', 'b', 'b', 'o', 'o', 's', 't', '-', 'p', 'r', 'o', 'g', 'r', 'a',
      'm', '-', 'o', 'p', 't', 'i', 'o', 'n', 's', '1', '.', '7', '4', '.', '0']
  | .yum => some ['b', 'o', 'o', 's', 't', '-', 'p', 'r', 'o', 'g', 'r', 'a', 'm', '-',
      'o', 'p', 't', 'i', 'o', 'n', 's']
  | .pacman => some ['b', 'o', 'o', 's', 't', '-', 'l', 'i', 'b', 's']
  | .apk => some ['b', 'o', 'o', 's', 't']

/-- Package names of the `libboost_iostreams` row (deps.py line 81). -/
def pkgsLibboostIostreams : PkgMgr → Option (List Char)
  | .apt => some ['l', 'i', 'b', 'b', 'o', 'o', 's', 't', '-', 'i', 'o', 's', 't', 'r', 'e',
      'a', 'm', 's', '1', '.', '7', '4', '.', '0']
  | .yum => some ['b', 'o', 'o', 's', 't', '-', 'i', 'o', 's', 't', 'r', 'e', 'a', 'm', 's']
  | .pacman => some ['b', 'o', 'o', 's', 't', '-', 'l', 'i', 'b', 's']
  | .apk => some ['b', 'o', 'o', 's', 't', '-', 'i', 'o', 's', 't', 'r', 'e', 'a', 'm', 's']

/-- The `LIB_TO_PKG` table of deps.py lines 76-82, in insertion order. -/
def LIB_TO_PKG : List (List Char × (PkgMgr → Option (List Char))) :=
  [(keyLibluajit, pkgsLibluajit),
   (keyLibboostSystem, pkgsLibboostSystem),
   (keyLibboostFilesystem, pkgsLibboostFilesystem),
   (keyLibboostProgramOptions, pkgsLibboostProgramOptions),
   (keyLibboostIostreams, pkgsLibboostIostreams)]

/-- The package-list construction of deps.py lines 110-116: for each missing
library, take the first table row whose key is a substring of the library
name (the inner loop `break`s on the first `lib_key in lib` hit); if that
row has an entry for the active manager, add it to the set. Python's
`set.add` is modelled as append-if-absent, so the result carries exactly the
set's membership. -/
def depStep (mgr : PkgMgr) (acc : List (List Char)) (lib : List Char) :
    List (List Char) :=
  match LIB_TO_PKG.find? (fun e => isSubstring e.1 lib) with
  | none => acc
  | some e =>
    match e.2 mgr with
    | none => acc
    | some pkg => if pkg ∈ acc then acc else acc ++ [pkg]

def packagesToInstall (missing : List (List Char)) (mgr : PkgMgr) : List (List Char) :=
  missing.foldl (depStep mgr) []

/-- Observable outcome of `check_server_dependencies` (deps.py lines 68-143):
the returned Bool, the computed installable set, the missing libraries the
function printed (line 72 and lines 105-106), and whether a
manual-installation notice was printed (line 104 or line 119). -/
structure DepsReport where
  result : Bool
  installSet : List (List Char)
  reportedMissing : List (List Char)
  manualNotice : Bool
deriving DecidableEq

/-- The outcome of `check_server_dependencies` given the detected missing
libraries, the detected package manager (`none` when no manager binary is
found), and the user/installer outcomes for the final prompt (deps.py lines
68-143). -/
def check_server_dependencies (missing : List (List Char)) (mgr : Option PkgMgr)
    (confirmInstall : Bool) (installOk : Bool) : DepsReport :=
  if missing.isEmpty then
    ⟨true, [], [], false⟩
  else
    match mgr with
    | none => ⟨false, [], missing, true⟩
    | some m =>
      if (packagesToInstall missing m).isEmpty then
        ⟨false, packagesToInstall missing m, missing, true⟩
      else if !confirmInstall then
        ⟨false, packagesToInstall missing m, missing, false⟩
      else if installOk then
        ⟨true, packagesToInstall missing m, missing, false⟩
      else ⟨false, packagesToInstall missing m, missing, false⟩

/-! Embedding of the client health-check pass, `run_system_check`
(healthcheck.py lines 23-204): the remediation prompts one pass emits, in
order, and how the pass ends. -/

/-- The four remediation categories of the auto-fix section. -/
inductive Remedy
  | libs
  | flatpak
  | engine
  | data
deriving DecidableEq

/-- How a pass of the loop ends: `restart` re-runs the checks (`continue`),
`fatal` is `sys.exit(1)`, `finished` falls through to the menu (`break`). -/
inductive PassExit
  | restart
  | fatal
  | finished
deriving DecidableEq

/-- The predicate results one pass observes (healthcheck.py lines 33-98);
`pkgMgrFound` is the apt-get/dnf/pacman detection of lines 150-158. -/
structure SysSnapshot where
  missingDeps : List (List Char)
  pkgMgrFound : Bool
  hasFlatpak : Bool
  tes3mpInstalled : Bool
  localPresent : Bool
  configLinked : Bool

/-- The user's answers to the pass's prompts, and whether the library
installation command succeeds. -/
structure UserChoices where
  installLibs : Bool
  libsInstallOk : Bool
  continueAnyway : Bool
  installEngine : Bool
  linkData : Bool

/-- Data-linkage step (healthcheck.py lines 192-196). -/
def passFromData (s : SysSnapshot) (u : UserChoices) (setupAvail : Bool) :
    List Remedy × PassExit :=
  if !s.configLinked && s.localPresent && setupAvail then
    if u.linkData then ([.data], .restart) else ([.data], .finished)
  else ([], .finished)

/-- Engine step (healthcheck.py lines 183-190); `has_engine` is
`has_flatpak and is_tes3mp_installed()` (line 44). -/
def passFromEngine (s : SysSnapshot) (u : UserChoices) (setupAvail : Bool) :
    List Remedy × PassExit :=
  if !(s.hasFlatpak && s.tes3mpInstalled) && setupAvail then
    if u.installEngine then ([.engine], .restart)
    else (.engine :: (passFromData s u setupAvail).1, (passFromData s u setupAvail).2)
  else passFromData s u setupAvail

/-- Flatpak step (healthcheck.py lines 178-181). -/
def passFromFlatpak (s : SysSnapshot) (u : UserChoices) (setupAvail : Bool) :
    List Remedy × PassExit :=
  if !s.hasFlatpak then ([.flatpak], .fatal) else passFromEngine s u setupAvail

/-- One pass of the `run_system_check` loop after rendering the table
(healthcheck.py lines 103-204), starting with the missing-libraries step
(lines 106-176): which remediations it offers, in order, and how it ends. -/
def run_system_check_pass (s : SysSnapshot) (u : UserChoices) (setupAvail : Bool) :
    List Remedy × PassExit :=
  if !s.missingDeps.isEmpty then
    if s.pkgMgrFound && u.installLibs then
      if u.libsInstallOk then ([.libs], .restart)
      else if u.continueAnyway then
        (.libs :: (passFromFlatpak s u setupAvail).1, (passFromFlatpak s u setupAvail).2)
      else ([.libs], .fatal)
    else if u.continueAnyway then
      (.libs :: (passFromFlatpak s u setupAvail).1, (passFromFlatpak s u setupAvail).2)
    else ([.libs], .fatal)
  else passFromFlatpak s u setupAvail

/-! Embedding of the environment checks of `checks.py`. -/

/-- Result of a successfully executed `ldd` subprocess: its exit code and
its stdout split into lines. -/
structure LddRun where
  exitCode : Int
  outLines : List (List Char)

/-- The characters of `not found`. -/
def notFoundStr : List Char :=
  ['n', 'o', 't', ' ', 'f', 'o', 'u', 'n', 'd']

/-- Python `line.split("=>")[0]`: the characters before the first `=>`. -/
def beforeArrow : List Char → List Char
  | [] => []
  | '=' :: '>' :: _ => []
  | c :: cs => c :: beforeArrow cs

/-- The `check_dependencies` predicate of checks.py lines 8-60: `binFound`
is whether a tes3mp binary was located (lines 22-30), `ldd` the outcome of
the `subprocess.run(["ldd", ...])` call (`Except.error` when the call
raises). Returns the missing-library names parsed from lines containing
`not found`. -/
def check_dependencies (binFound : Bool) (ldd : Except Unit LddRun) :
    List (List Char) :=
  if !binFound then []
  else
    match ldd with
    | .error _ => []
    | .ok r =>
      if r.exitCode ≠ 0 then []
      else
        r.outLines.filterMap (fun l =>
          if isSubstring notFoundStr l then
            match strip (beforeArrow l) with
            | [] => none
            | lib => some lib
          else none)

/-- The characters of `active`. -/
def activeStr : List Char :=
  ['a', 'c', 't', 'i', 'v', 'e']

/-- The `is_tailscale_running` predicate of checks.py lines 76-90:
`installed` is `is_tailscale_installed()`, `sysctl` the outcome of
`systemctl is-active tailscaled` (stdout on success), `status` the outcome
of the fallback `tailscale status` (return code on success). -/
def is_tailscale_running (installed : Bool) (sysctl : Except Unit (List Char))
    (status : Except Unit Int) : Bool :=
  if !installed then false
  else
    match sysctl with
    | .ok out => isSubstring activeStr out
    | .error _ =>
      match status with
      | .ok rc => rc == 0
      | .error _ => false

/-- The `is_port_free` predicate of checks.py lines 127-138: `true` when the
UDP bind succeeds, `false` when it raises `OSError`. -/
def is_port_free (bindResult : Except Unit Unit) : Bool :=
  match bindResult with
  | .ok _ => true
  | .error _ => false

/-- The characters of `data="`. -/
def dataQuote : List Char :=
  ['d', 'a', 't', 'a', '=', '"']

/-- One candidate openmw.cfg in `check_data_files` (checks.py lines
109-120): `none` when the file does not exist, `some (.error ())` when it
exists but reading raises, `some (.ok content)` when it reads. The loop
body sets `config_linked` when the content contains `data="`. -/
def candidateHasData : Option (Except Unit (List Char)) → Bool
  | some (.ok content) => isSubstring dataQuote content
  | _ => false

/-- The `check_data_files` function of checks.py lines 94-125: `storedPath`
is the stored preference (`load_stored_data_path()`) together with whether
that path exists on disk; `flatpakCfg` and `standardCfg` are the two
candidate config files in the order of `cfg_candidates`. Returns
(`local_present`, `config_linked`). -/
def check_data_files (storedPath : Option (List Char × Bool))
    (flatpakCfg standardCfg : Option (Except Unit (List Char))) : Bool × Bool :=
  let localPresent :=
    match storedPath with
    | some sp => sp.2
    | none => false
  let configLinked := candidateHasData flatpakCfg || candidateHasData standardCfg
  (localPresent, configLinked)

/-! Concrete inputs used by counterexamples and witnesses. -/

/-- File content `data="?a"` / `data="?b"` on two lines. -/
def twoExemptDataLines : List Char :=
  ['d', 'a', 't', 'a', '=', '"', '?', 'a', '"', '\n',
   'd', 'a', 't', 'a', '=', '"', '?', 'b', '"', '\n']

/-- File content with the single line `DATA=/foo`. -/
def upperDataContent : List Char :=
  ['D', 'A', 'T', 'A', '=', '/', 'f', 'o', 'o', '\n']

/-- File content with the single line `content=MyMod.esp`. -/
def myModContent : List Char :=
  ['c', 'o', 'n', 't', 'e', 'n', 't', '=', 'M', 'y', 'M', 'o', 'd', '.', 'e', 's', 'p', '\n']

/-- The managed line `content=Morrowind.esm` with trailing newline. -/
def contentMorrowindLine : List Char :=
  ['c', 'o', 'n', 't', 'e', 'n', 't', '=', 'M', 'o', 'r', 'r', 'o', 'w', 'i', 'n', 'd',
   '.', 'e', 's', 'm', '\n']

/-- The ldd line `libzvbi.so.0 => not found`. -/
def zvbiLib : List Char :=
  ['l', 'i', 'b', 'z', 'v', 'b', 'i', '.', 's', 'o', '.', '0', ' ', '=', '>', ' ',
   'n', 'o', 't', ' ', 'f', 'o', 'u', 'n', 'd']

/-- The ldd line `libluajit-5.1.so.2 => not found`. -/
def luajitLib : List Char :=
  ['l', 'i', 'b', 'l', 'u', 'a', 'j', 'i', 't', '-', '5', '.', '1', '.', 's', 'o', '.',
   '2', ' ', '=', '>', ' ', 'n', 'o', 't', ' ', 'f', 'o', 'u', 'n', 'd']

end TES3MPEasy

namespace TES3MPEasy

theorem readlines_cons (c : Char) (cs : List Char) :
    readlines (c :: cs) =
      if c = '\n' then ['\n'] :: readlines cs
      else
        match readlines cs with
        | [] => [[c]]
        | l :: ls => (c :: l) :: ls := by
  rw [readlines]

theorem readlines_ne_nil {s : List Char} (hs : s ≠ []) : readlines s ≠ [] := by
  match s with
  | c :: cs =>
    rw [readlines_cons]
    by_cases hc : c = '\n'
    · simp [hc]
    · simp only [if_neg hc]
      cases readlines cs <;> simp

theorem endsNl_append (a : List Char) {b : List Char} (hb : b ≠ []) :
    endsNl (a ++ b) = endsNl b := by
  match a, b, hb with
  | [], _, _ => rfl
  | [c], b0 :: bs, _ => rfl
  | c :: c2 :: cs2, b0 :: bs, hb =>
    show endsNl (c2 :: (cs2 ++ b0 :: bs)) = _
    exact endsNl_append (c2 :: cs2) hb

theorem readlines_append (a b : List Char) (ha : endsNl a = true) :
    readlines (a ++ b) = readlines a ++ readlines b := by
  match a, ha with
  | [c], ha =>
    have hc : c = '\n' := by simpa [endsNl] using ha
    subst hc
    rw [List.cons_append, List.nil_append, readlines_cons '\n' b,
      readlines_cons '\n' [], if_pos rfl, if_pos rfl]
    rfl
  | c :: c2 :: cs2, ha =>
    have ha2 : endsNl (c2 :: cs2) = true := ha
    have ih := readlines_append (c2 :: cs2) b ha2
    rw [List.cons_append, readlines_cons c (c2 :: cs2 ++ b),
      readlines_cons c (c2 :: cs2), ih]
    by_cases hc : c = '\n'
    · rw [if_pos hc, if_pos hc]
      rfl
    · rw [if_neg hc, if_neg hc]
      cases hrl : readlines (c2 :: cs2) with
      | nil => exact absurd hrl (readlines_ne_nil (by simp))
      | cons l ls => simp

theorem readlines_wfLine {l : List Char} (hl : wfLine l = true) :
    readlines l = [l] := by
  match l, hl with
  | c :: cs, hl =>
    by_cases hc : c = '\n'
    · subst hc
      match cs with
      | [] => rfl
      | c2 :: cs2 =>
        exfalso
        simp [wfLine, List.dropLast] at hl
    · match cs with
      | [] => simp [readlines_cons, readlines, if_neg hc]
      | c2 :: cs2 =>
        have h2 : wfLine (c2 :: cs2) = true := by
          simp only [wfLine, Bool.and_eq_true] at hl ⊢
          refine ⟨by simp, ?_⟩
          have h3 := hl.2
          rw [show (c :: c2 :: cs2).dropLast = c :: (c2 :: cs2).dropLast from rfl,
            List.all_cons, Bool.and_eq_true] at h3
          exact h3.2
        rw [readlines_cons, if_neg hc, readlines_wfLine h2]

theorem wfLine_ne_nil {l : List Char} (hl : wfLine l = true) : l ≠ [] := by
  intro h
  subst h
  simp [wfLine] at hl

theorem wfLine_mem_readlines {s l : List Char} (hl : l ∈ readlines s) :
    wfLine l = true := by
  match s, hl with
  | c :: cs, hl =>
    rw [readlines_cons] at hl
    by_cases hc : c = '\n'
    · rw [if_pos hc] at hl
      rcases List.mem_cons.mp hl with h | h
      · subst h; decide
      · exact wfLine_mem_readlines h
    · rw [if_neg hc] at hl
      cases hrl : readlines cs with
      | nil =>
        rw [hrl] at hl
        simp at hl
        subst hl
        simp [wfLine]
      | cons l2 ls2 =>
        rw [hrl] at hl
        rcases List.mem_cons.mp hl with h | h
        · subst h
          have h2 : wfLine l2 = true := wfLine_mem_readlines (by rw [hrl]; simp)
          have h2n : l2 ≠ [] := wfLine_ne_nil h2
          match l2, h2n with
          | x :: xs, _ =>
            simp only [wfLine, Bool.and_eq_true] at h2 ⊢
            refine ⟨by simp, ?_⟩
            rw [show (c :: x :: xs).dropLast = c :: (x :: xs).dropLast from rfl,
              List.all_cons, Bool.and_eq_true]
            exact ⟨by simpa using hc, h2.2⟩
        · exact wfLine_mem_readlines (s := cs) (by rw [hrl]; simp [h])

theorem endsNl_cons_of_ne_nil {c : Char} {l : List Char} (h : l ≠ []) :
    endsNl (c :: l) = endsNl l := by
  match l, h with
  | x :: xs, _ => rfl

theorem chainClosed_readlines (s : List Char) : chainClosed (readlines s) = true := by
  match s with
  | [] => rfl
  | c :: cs =>
    have ih := chainClosed_readlines cs
    rw [readlines_cons]
    by_cases hc : c = '\n'
    · rw [if_pos hc]
      cases hrl : readlines cs with
      | nil => rfl
      | cons r rs =>
        rw [hrl] at ih
        show (endsNl ['\n'] && chainClosed (r :: rs)) = true
        rw [show endsNl ['\n'] = true from rfl, ih, Bool.and_self]
    · rw [if_neg hc]
      cases hrl : readlines cs with
      | nil => rfl
      | cons r rs =>
        rw [hrl] at ih
        cases rs with
        | nil => rfl
        | cons r2 rs2 =>
          have hcc : (endsNl r && chainClosed (r2 :: rs2)) = true := ih
          rw [Bool.and_eq_true] at hcc
          have hr : r ≠ [] :=
            wfLine_ne_nil (wfLine_mem_readlines (s := cs) (by rw [hrl]; simp))
          show (endsNl (c :: r) && chainClosed (r2 :: rs2)) = true
          rw [endsNl_cons_of_ne_nil hr, Bool.and_eq_true]
          exact hcc

theorem readlines_flatten {ls : List (List Char)} (h : wfLines ls = true) :
    readlines ls.flatten = ls := by
  match ls with
  | [] => rfl
  | [l] =>
    have hw : wfLine l = true := by
      simp only [wfLines, List.all_cons, Bool.and_eq_true] at h
      exact h.1.1
    rw [show ([l] : List (List Char)).flatten = l by simp, readlines_wfLine hw]
  | l :: l2 :: ls2 =>
    simp only [wfLines, List.all_cons, Bool.and_eq_true] at h
    have hcc : (endsNl l && chainClosed (l2 :: ls2)) = true := h.2
    rw [Bool.and_eq_true] at hcc
    have htl : wfLines (l2 :: ls2) = true := by
      simp only [wfLines, List.all_cons, Bool.and_eq_true]
      exact ⟨⟨h.1.2.1, h.1.2.2⟩, hcc.2⟩
    have ih := readlines_flatten htl
    rw [show (l :: l2 :: ls2).flatten = l ++ (l2 :: ls2).flatten by simp,
      readlines_append l _ hcc.1, readlines_wfLine h.1.1, ih]
    rfl

theorem chainClosed_tail {l : List Char} {ls : List (List Char)}
    (h : chainClosed (l :: ls) = true) : chainClosed ls = true := by
  cases ls with
  | nil => rfl
  | cons l2 ls2 =>
    have hcc : (endsNl l && chainClosed (l2 :: ls2)) = true := h
    exact (Bool.and_eq_true .. |>.mp hcc).2

theorem chainClosed_head {l : List Char} {ls : List (List Char)} (hls : ls ≠ [])
    (h : chainClosed (l :: ls) = true) : endsNl l = true := by
  match ls, hls with
  | l2 :: ls2, _ =>
    have hcc : (endsNl l && chainClosed (l2 :: ls2)) = true := h
    exact (Bool.and_eq_true .. |>.mp hcc).1

theorem wfLines_filter {ls : List (List Char)} (q : List Char → Bool)
    (h : wfLines ls = true) : wfLines (ls.filter q) = true := by
  match ls with
  | [] => rfl
  | l :: ls2 =>
    simp only [wfLines, List.all_cons, Bool.and_eq_true] at h
    have htl : wfLines ls2 = true := by
      simp only [wfLines, Bool.and_eq_true]
      exact ⟨h.1.2, chainClosed_tail h.2⟩
    have ih := wfLines_filter q htl
    rw [List.filter_cons]
    by_cases hq : q l = true
    · rw [if_pos hq]
      simp only [wfLines, List.all_cons, Bool.and_eq_true] at ih ⊢
      refine ⟨⟨h.1.1, ih.1⟩, ?_⟩
      cases hf : ls2.filter q with
      | nil => rfl
      | cons f fs =>
        have hne : ls2 ≠ [] := by
          intro hnil
          rw [hnil] at hf
          simp at hf
        have hend : endsNl l = true := chainClosed_head hne h.2
        rw [hf] at ih
        show (endsNl l && chainClosed (f :: fs)) = true
        rw [Bool.and_eq_true]
        exact ⟨hend, ih.2⟩
    · rw [if_neg hq]
      exact ih

theorem rstrip_cons (c : Char) (cs : List Char) :
    rstrip (c :: cs) =
      match rstrip cs with
      | [] => if isSpace c then [] else [c]
      | r => c :: r := by
  rw [rstrip]

theorem rstrip_append_space {c : Char} (hc : isSpace c = true) (xs : List Char) :
    rstrip (xs ++ [c]) = rstrip xs := by
  induction xs with
  | nil => simp [rstrip_cons, rstrip, hc]
  | cons a xs ih =>
    rw [List.cons_append, rstrip_cons, ih, rstrip_cons]

theorem rstrip_append_nonspace {c : Char} (hc : isSpace c = false) (xs : List Char) :
    rstrip (xs ++ [c]) = xs ++ [c] := by
  induction xs with
  | nil => simp [rstrip_cons, rstrip, hc]
  | cons a xs ih =>
    rw [List.cons_append, rstrip_cons, ih]
    cases xs <;> simp

theorem dropWhile_isSpace_cons {c : Char} (hc : isSpace c = false) (xs : List Char) :
    (c :: xs).dropWhile isSpace = c :: xs := by
  rw [List.dropWhile_cons, if_neg (by simp [hc])]

theorem dataHeaderLine_eq (p : List Char) :
    dataHeaderLine p = ('d' :: (['a', 't', 'a', '=', '"'] ++ p ++ ['"'])) ++ ['\n'] := by
  simp [dataHeaderLine, dataKey]

theorem strip_dataHeaderLine (p : List Char) :
    strip (dataHeaderLine p) = 'd' :: (['a', 't', 'a', '=', '"'] ++ p ++ ['"']) := by
  rw [strip, dataHeaderLine_eq, List.cons_append,
    dropWhile_isSpace_cons (by decide), ← List.cons_append,
    rstrip_append_space (by decide),
    show 'd' :: (['a', 't', 'a', '=', '"'] ++ p ++ ['"'])
        = ('d' :: (['a', 't', 'a', '=', '"'] ++ p)) ++ ['"'] by simp,
    rstrip_append_nonspace (by decide)]

theorem dropLast_append_single (xs : List Char) (c : Char) :
    (xs ++ [c]).dropLast = xs := by
  induction xs with
  | nil => rfl
  | cons a as ih =>
    cases h : as ++ [c] with
    | nil => exact absurd h (by simp)
    | cons y ys =>
      calc ((a :: as) ++ [c]).dropLast
          = (a :: (as ++ [c])).dropLast := by rw [List.cons_append]
        _ = a :: (as ++ [c]).dropLast := by rw [h]; rfl
        _ = a :: as := by rw [ih]

theorem isPrefixOf_append_self (l r : List Char) : l.isPrefixOf (l ++ r) = true := by
  induction l with
  | nil => simp [List.isPrefixOf]
  | cons a as ih => simp [List.isPrefixOf, ih]

theorem dataKey_prefix_dataHeader (p : List Char) :
    dataKey.isPrefixOf (strip (dataHeaderLine p)) = true := by
  rw [strip_dataHeaderLine,
    show 'd' :: (['a', 't', 'a', '=', '"'] ++ p ++ ['"'])
        = dataKey ++ ('"' :: (p ++ ['"'])) by simp [dataKey]]
  exact isPrefixOf_append_self ..

theorem dropCi_cons_ne {a b : Char} (h : ¬a.toLower = b.toLower)
    (ps ss : List Char) : dropCi (a :: ps) (b :: ss) = none := by
  rw [dropCi, if_neg h]

theorem matchKeyVal_false_of_none {key v t : List Char}
    (h : dropCi key t = none) : matchKeyVal key v t = false := by
  rw [matchKeyVal, matchKeyEq, h]

theorem matchKeyVal_content_dataHeader (v p : List Char) :
    matchKeyVal contentKey v (strip (dataHeaderLine p)) = false := by
  apply matchKeyVal_false_of_none
  rw [strip_dataHeaderLine, contentKey]
  exact dropCi_cons_ne (by decide) ..

theorem matchKeyVal_archive_dataHeader (v p : List Char) :
    matchKeyVal archiveKey v (strip (dataHeaderLine p)) = false := by
  apply matchKeyVal_false_of_none
  rw [strip_dataHeaderLine, archiveKey]
  exact dropCi_cons_ne (by decide) ..

theorem wfLine_dataHeaderLine {p : List Char} (hp : '\n' ∉ p) :
    wfLine (dataHeaderLine p) = true := by
  rw [dataHeaderLine_eq, wfLine, Bool.and_eq_true]
  constructor
  · simp
  · rw [dropLast_append_single, List.all_eq_true]
    intro c hcmem
    rw [Bool.not_eq_true', decide_eq_false_iff_not]
    intro hcn
    subst hcn
    simp only [List.mem_cons, List.mem_append, List.mem_singleton] at hcmem
    rcases hcmem with h | h
    · exact absurd h (by decide)
    · rcases h with h | h
      · rcases h with h | h
        · rcases h with h | h | h | h | h
          all_goals exact absurd h (by decide)
        · exact hp h
      · exact absurd h (by decide)

theorem endsNl_dataHeaderLine (p : List Char) :
    endsNl (dataHeaderLine p) = true := by
  rw [dataHeaderLine_eq, endsNl_append _ (by simp)]
  rfl

theorem chainClosed_append {A B : List (List Char)} (hA : A.all endsNl = true)
    (hB : chainClosed B = true) : chainClosed (A ++ B) = true := by
  match A with
  | [] => exact hB
  | [a] =>
    rw [List.all_cons, Bool.and_eq_true] at hA
    cases B with
    | nil => rfl
    | cons b bs =>
      show (endsNl a && chainClosed (b :: bs)) = true
      rw [Bool.and_eq_true]
      exact ⟨hA.1, hB⟩
  | a :: a2 :: A2 =>
    rw [List.all_cons, Bool.and_eq_true] at hA
    have ih := chainClosed_append hA.2 hB
    show (endsNl a && chainClosed (a2 :: (A2 ++ B))) = true
    rw [Bool.and_eq_true]
    exact ⟨hA.1, ih⟩

theorem wfLines_header_append_filter {content p : List Char} {inc : Bool}
    (hp : '\n' ∉ p) :
    wfLines (headerLines p inc ++ (readlines content).filter keepLine) = true := by
  have hF : wfLines ((readlines content).filter keepLine) = true :=
    wfLines_filter keepLine (by
      rw [wfLines, Bool.and_eq_true]
      refine ⟨?_, chainClosed_readlines content⟩
      rw [List.all_eq_true]
      exact fun l hl => wfLine_mem_readlines hl)
  rw [wfLines, Bool.and_eq_true] at hF ⊢
  constructor
  · rw [List.all_append, Bool.and_eq_true]
    refine ⟨?_, hF.1⟩
    rw [headerLines]
    cases inc
    · rw [if_neg (by decide : ¬(false = true))]
      simp [wfLine_dataHeaderLine hp]
    · rw [if_pos (by decide : true = true), List.all_cons, Bool.and_eq_true]
      exact ⟨wfLine_dataHeaderLine hp, by decide⟩
  · apply chainClosed_append _ hF.2
    rw [headerLines]
    cases inc
    · rw [if_neg (by decide : ¬(false = true))]
      simp [endsNl_dataHeaderLine p]
    · rw [if_pos (by decide : true = true), List.all_cons, Bool.and_eq_true]
      exact ⟨endsNl_dataHeaderLine p, by decide⟩

/-- Reading back the file written by `_update_single_config` yields exactly
the header block followed by the kept original lines, provided the data path
contains no newline character. -/
theorem readlines_update (content p : List Char) (inc : Bool) (hp : '\n' ∉ p) :
    readlines (update_single_config content p inc)
      = headerLines p inc ++ (readlines content).filter keepLine := by
  rw [update_single_config]
  exact readlines_flatten (wfLines_header_append_filter hp)

theorem wfLines_readlines (s : List Char) : wfLines (readlines s) = true := by
  rw [wfLines, Bool.and_eq_true]
  refine ⟨?_, chainClosed_readlines s⟩
  rw [List.all_eq_true]
  exact fun l hl => wfLine_mem_readlines hl

theorem isManagedLine_true_of_any {t : List Char}
    (h : managedPairs.any (fun kv => matchKeyVal kv.1 kv.2 t) = true) :
    isManagedLine t = true := by
  rw [managedPairs] at h
  simp only [List.any_cons, List.any_nil, Bool.or_false, Bool.or_eq_true] at h
  rw [isManagedLine]
  rcases h with h | h | h | h | h | h <;> simp [h]

theorem managed_of_pair {kv : List Char × List Char} (hkv : kv ∈ managedPairs)
    {l : List Char} (h : matchesManagedPair kv l = true) :
    isManagedLine (strip l) = true :=
  isManagedLine_true_of_any (List.any_eq_true.mpr ⟨kv, hkv, h⟩)

theorem managed_of_strict {l : List Char} (h : isStrictData l = true) :
    isManagedLine (strip l) = true := by
  rw [isStrictData, isDataDirective, isExemptData] at h
  rw [isManagedLine, h]
  simp

theorem managed_of_contentArchive {l : List Char}
    (h : isManagedContentArchive l = true) : isManagedLine (strip l) = true :=
  isManagedLine_true_of_any h

theorem countP_kept_zero (content : List Char) {q : List Char → Bool}
    (h : ∀ l, q l = true → isManagedLine (strip l) = true) :
    ((readlines content).filter keepLine).countP q = 0 := by
  rw [List.countP_eq_zero]
  intro l hl hq
  have hk := (List.mem_filter.mp hl).2
  rw [keepLine, h l hq] at hk
  simp at hk

theorem countP_header_strict (p : List Char) (inc : Bool) :
    (headerLines p inc).countP isStrictData ≤ 1 := by
  rw [headerLines, List.countP_cons]
  have h6 : (if inc then contentHeaderLines else []).countP isStrictData = 0 := by
    cases inc
    · rw [if_neg (by decide : ¬(false = true))]; rfl
    · rw [if_pos (by decide : true = true)]; decide
  rw [h6]
  cases hd : isStrictData (dataHeaderLine p) <;> simp

theorem countP_header_dataDirective (p : List Char) (inc : Bool) :
    (headerLines p inc).countP isDataDirective = 1 := by
  rw [headerLines, List.countP_cons]
  have hd : isDataDirective (dataHeaderLine p) = true := by
    rw [isDataDirective]
    exact dataKey_prefix_dataHeader p
  have h6 : (if inc then contentHeaderLines else []).countP isDataDirective = 0 := by
    cases inc
    · rw [if_neg (by decide : ¬(false = true))]; rfl
    · rw [if_pos (by decide : true = true)]; decide
  rw [h6, hd]
  simp

theorem countP_header_pair (p : List Char) (inc : Bool) {kv : List Char × List Char}
    (hkv : kv ∈ managedPairs) :
    (headerLines p inc).countP (matchesManagedPair kv) = if inc then 1 else 0 := by
  rw [managedPairs] at hkv
  simp only [List.mem_cons, List.not_mem_nil, or_false] at hkv
  have hdata : matchesManagedPair kv (dataHeaderLine p) = false := by
    rcases hkv with rfl | rfl | rfl | rfl | rfl | rfl
    · exact matchKeyVal_content_dataHeader morrowindEsm p
    · exact matchKeyVal_content_dataHeader tribunalEsm p
    · exact matchKeyVal_content_dataHeader bloodmoonEsm p
    · exact matchKeyVal_archive_dataHeader morrowindBsa p
    · exact matchKeyVal_archive_dataHeader tribunalBsa p
    · exact matchKeyVal_archive_dataHeader bloodmoonBsa p
  have h6 : (if inc then contentHeaderLines else []).countP (matchesManagedPair kv)
      = if inc then 1 else 0 := by
    cases inc
    · rfl
    · rw [if_pos (by decide : true = true), if_pos (by decide : true = true)]
      rcases hkv with rfl | rfl | rfl | rfl | rfl | rfl <;> decide
  rw [headerLines, List.countP_cons, h6, hdata]
  simp

theorem countP_header_contentArchive (p : List Char) :
    (headerLines p true).countP isManagedContentArchive = 6 := by
  rw [show headerLines p true = dataHeaderLine p :: contentHeaderLines from rfl,
    List.countP_cons]
  have hdata : isManagedContentArchive (dataHeaderLine p) = false := by
    rw [isManagedContentArchive, managedPairs]
    simp [matchesManagedPair, matchKeyVal_content_dataHeader,
      matchKeyVal_archive_dataHeader]
  rw [hdata, show contentHeaderLines.countP isManagedContentArchive = 6 from by decide]
  simp

example : readlines ['a', '\n', 'b'] = [['a', '\n'], ['b']] := by decide

example : strip [' ', 'd', 'x', '\n'] = ['d', 'x'] := by decide

example : matchKeyVal contentKey morrowindEsm
    (['C', 'O', 'N', 'T', 'E', 'N', 'T', ' ', '='] ++ ' ' :: morrowindEsm) = true := by
  decide

example :
    update_single_config [] ['?'] false = dataKey ++ ['"', '?', '"', '\n'] := by decide

example :
    update_single_config (update_single_config [] ['?'] false) ['?'] false
      = dataKey ++ ['"', '?', '"', '\n'] ++ dataKey ++ ['"', '?', '"', '\n'] := by decide

/-- C1: the reconciler is not idempotent for every data-path value. On the
empty file with data path `?` and include-content `false`, the first run
writes the single line `data="?"`; a second run with identical inputs keeps
that line — the `startswith('data="?')` exemption of client.py line 62
prevents its removal, contradicting the comment `Remove ALL existing data=
lines` — and prepends a fresh header, so the file gains a duplicate `data=`
line instead of being byte-identical. -/
theorem c1_reconcile_twice_differs :
    update_single_config (update_single_config [] ['?'] false) ['?'] false
      ≠ update_single_config [] ['?'] false := by decide

/-- C2 counterexample: on the input whose two lines are `data="?a"` and
`data="?b"` (with data path `/d`, include-content `true`), the reconciled
output contains three lines whose stripped form starts with `data=` — both
input lines survive the filter through the `data="?` exemption, on top of
the fresh header line — refuting "at most one data= line". -/
theorem c2_counterexample_three_data_lines :
    ¬ ((readlines (update_single_config twoExemptDataLines ['/', 'd'] true)).countP
        isDataDirective ≤ 1) := by decide

/-- C2 (amended): after one run, at most one output line is a `data=`
directive of the kind the reconciler manages (stripped form starting with
`data=` but not with `data="?`), and each managed content/archive directive
matches at most one output line; pre-existing `data="?`-prefixed lines are
exempt and may add further `data=` lines. Stated for data paths without
newline characters (a newline inside the path would split the header line on
re-reading). -/
theorem c2_amended_no_duplicates (content p : List Char) (inc : Bool)
    (hp : '\n' ∉ p) :
    (readlines (update_single_config content p inc)).countP isStrictData ≤ 1
    ∧ ∀ kv ∈ managedPairs,
        (readlines (update_single_config content p inc)).countP
          (matchesManagedPair kv) ≤ 1 := by
  rw [readlines_update content p inc hp]
  constructor
  · rw [List.countP_append, countP_kept_zero content (fun l h => managed_of_strict h)]
    rw [Nat.add_zero]
    exact countP_header_strict p inc
  · intro kv hkv
    rw [List.countP_append,
      countP_kept_zero content (fun l h => managed_of_pair hkv h),
      Nat.add_zero, countP_header_pair p inc hkv]
    cases inc <;> simp

/-- C2 amended, instantiated at the counterexample input. -/
theorem c2_amended_no_duplicates_witness :
    (readlines (update_single_config twoExemptDataLines ['/', 'd'] true)).countP
        isStrictData ≤ 1
    ∧ ∀ kv ∈ managedPairs,
        (readlines (update_single_config twoExemptDataLines ['/', 'd'] true)).countP
          (matchesManagedPair kv) ≤ 1 :=
  c2_amended_no_duplicates twoExemptDataLines ['/', 'd'] true (by decide)

/-- C3 counterexample: the line `DATA=/foo` names the data-path directive
when letter case is ignored (its lowercased, stripped form starts with
`data=`), yet it survives reconciliation: it appears in the preserved tail
of the output, because client.py line 62 matches `data=` case-sensitively.
-/
theorem c3_counterexample_upper_data_survives :
    dataKey.isPrefixOf (strip (upperDataContent.map Char.toLower)) = true
    ∧ upperDataContent ∈
        (readlines (update_single_config upperDataContent ['/', 'd'] true)).drop
          (headerLines ['/', 'd'] true).length := by
  constructor
  · decide
  · decide

/-- C3 (amended): the reconciler removes from the preserved tail exactly the
lines its filter matches: the six content/archive identifiers matched
case-insensitively with whitespace tolerated around `=`, and data-path lines
matched case-sensitively by the exact prefix `data=` of the stripped line,
excluding lines starting `data="?`. Every line the filter matches is absent
from the output's preserved tail. -/
theorem c3_amended_managed_removed (content p : List Char) (inc : Bool)
    (l : List Char) (hp : '\n' ∉ p) (hl : isManagedLine (strip l) = true) :
    l ∉ (readlines (update_single_config content p inc)).drop
        (headerLines p inc).length := by
  rw [readlines_update content p inc hp, List.drop_left]
  intro hmem
  have hk := (List.mem_filter.mp hmem).2
  rw [keepLine, hl] at hk
  simp at hk

/-- C3 amended, instantiated: a managed `content=Morrowind.esm` input line
is absent from the preserved tail. -/
theorem c3_amended_managed_removed_witness :
    contentMorrowindLine ∉
      (readlines (update_single_config (contentMorrowindLine ++ upperDataContent)
          ['/', 'd'] true)).drop (headerLines ['/', 'd'] true).length :=
  c3_amended_managed_removed (contentMorrowindLine ++ upperDataContent) ['/', 'd']
    true contentMorrowindLine (by decide) (by decide)

/-- C4 counterexample: the input consisting of the single line
`content=MyMod.esp` contains no `data=` line, yet the reconciled output
(include-content `true`) contains seven content/archive-keyed lines, not
six: the unmanaged `content=` line is preserved in addition to the six
fresh header lines. -/
theorem c4_counterexample_seven_content_lines :
    (∀ l ∈ readlines myModContent, isDataDirective l = false)
    ∧ ¬ ((readlines (update_single_config myModContent ['/', 'd'] true)).countP
          isContentOrArchiveKeyed = 6) := by
  constructor
  · decide
  · decide

/-- C4 (amended): for every input without a `data=` line and a data path
without newlines, the output of a run with include-content `true` contains
exactly one `data=` line and exactly six lines matching the managed
content/archive set, each of the six managed directives matching exactly
one line; pre-existing unmanaged `content=`/`fallback-archive=` lines (such
as other mods) are preserved in addition. -/
theorem c4_amended_fresh_header (content p : List Char) (hp : '\n' ∉ p)
    (hnd : ∀ l ∈ readlines content, isDataDirective l = false) :
    (readlines (update_single_config content p true)).countP isDataDirective = 1
    ∧ (readlines (update_single_config content p true)).countP
        isManagedContentArchive = 6
    ∧ ∀ kv ∈ managedPairs,
        (readlines (update_single_config content p true)).countP
          (matchesManagedPair kv) = 1 := by
  rw [readlines_update content p true hp]
  refine ⟨?_, ?_, ?_⟩
  · rw [List.countP_append, countP_header_dataDirective p true]
    have hz : ((readlines content).filter keepLine).countP isDataDirective = 0 := by
      rw [List.countP_eq_zero]
      intro l hl hq
      rw [hnd l (List.mem_of_mem_filter hl)] at hq
      exact absurd hq (by simp)
    rw [hz]
  · rw [List.countP_append,
      countP_kept_zero content (fun l h => managed_of_contentArchive h),
      Nat.add_zero, countP_header_contentArchive p]
  · intro kv hkv
    rw [List.countP_append,
      countP_kept_zero content (fun l h => managed_of_pair hkv h),
      Nat.add_zero, countP_header_pair p true hkv]
    rfl

/-- C4 amended, instantiated at the counterexample input. -/
theorem c4_amended_fresh_header_witness :
    (readlines (update_single_config myModContent ['/', 'd'] true)).countP
        isDataDirective = 1
    ∧ (readlines (update_single_config myModContent ['/', 'd'] true)).countP
        isManagedContentArchive = 6
    ∧ ∀ kv ∈ managedPairs,
        (readlines (update_single_config myModContent ['/', 'd'] true)).countP
          (matchesManagedPair kv) = 1 :=
  c4_amended_fresh_header myModContent ['/', 'd'] (by decide) (by decide)

/-- C5: every input line the filter does not match survives reconciliation,
and the surviving lines appear in the output in their original relative
order: the filtered input-line sequence is a sublist of the output's line
sequence, for every input, data path and include-content flag. -/
theorem c5_passthrough_preserved (content p : List Char) (inc : Bool) :
    List.Sublist ((readlines content).filter keepLine)
      (readlines (update_single_config content p inc)) := by
  rw [update_single_config, List.flatten_append]
  have hH : endsNl (headerLines p inc).flatten = true := by
    rw [headerLines]
    cases inc
    · rw [show (if false = true then contentHeaderLines else []) = ([] : List (List Char))
          from rfl]
      rw [show ([dataHeaderLine p] : List (List Char)).flatten = dataHeaderLine p by simp]
      exact endsNl_dataHeaderLine p
    · rw [show (if true = true then contentHeaderLines else []) = contentHeaderLines
          from rfl]
      rw [show (dataHeaderLine p :: contentHeaderLines).flatten
          = dataHeaderLine p ++ contentHeaderLines.flatten by simp]
      rw [endsNl_append _ (by decide)]
      decide
  rw [readlines_append _ _ hH,
    readlines_flatten (wfLines_filter keepLine (wfLines_readlines content))]
  exact List.sublist_append_right _ _

theorem mem_depStep (mgr : PkgMgr) (acc : List (List Char)) (lib : List Char)
    {pkg : List Char} (h : pkg ∈ acc) : pkg ∈ depStep mgr acc lib := by
  rw [depStep]
  split
  · exact h
  · split
    · exact h
    · split
      · exact h
      · exact List.mem_append_left _ h

theorem mem_foldl_depStep (mgr : PkgMgr) {pkg : List Char} :
    ∀ (ms : List (List Char)) (acc : List (List Char)), pkg ∈ acc →
      pkg ∈ ms.foldl (depStep mgr) acc := by
  intro ms
  induction ms with
  | nil => exact fun acc h => h
  | cons m ms2 ih => exact fun acc h => ih _ (mem_depStep mgr acc m h)

theorem mem_depStep_insert (mgr : PkgMgr) (acc : List (List Char)) (lib : List Char)
    {e : List Char × (PkgMgr → Option (List Char))} {pkg : List Char}
    (hfind : LIB_TO_PKG.find? (fun e2 => isSubstring e2.1 lib) = some e)
    (hpkg : e.2 mgr = some pkg) : pkg ∈ depStep mgr acc lib := by
  rw [depStep]
  split
  · rename_i hf
    rw [hfind] at hf
    exact Option.noConfusion hf
  · rename_i e2 hf
    rw [hfind] at hf
    injection hf with he
    subst he
    split
    · rename_i hp
      rw [hpkg] at hp
      exact Option.noConfusion hp
    · rename_i pk2 hp
      rw [hpkg] at hp
      injection hp with he2
      subst he2
      by_cases hm : pkg ∈ acc
      · rw [if_pos hm]; exact hm
      · rw [if_neg hm]; exact List.mem_append_right _ (by simp)

theorem nodup_depStep (mgr : PkgMgr) (acc : List (List Char)) (lib : List Char)
    (h : acc.Nodup) : (depStep mgr acc lib).Nodup := by
  rw [depStep]
  split
  · exact h
  · split
    · exact h
    · split
      · exact h
      · rename_i hm
        refine List.Nodup.append h (List.nodup_singleton _) ?_
        intro x hx hx2
        rw [List.mem_singleton] at hx2
        subst hx2
        exact hm hx

theorem nodup_foldl_depStep (mgr : PkgMgr) :
    ∀ (ms : List (List Char)) (acc : List (List Char)), acc.Nodup →
      (ms.foldl (depStep mgr) acc).Nodup := by
  intro ms
  induction ms with
  | nil => exact fun acc h => h
  | cons m ms2 ih => exact fun acc h => ih _ (nodup_depStep mgr acc m h)

theorem mem_packages_aux (mgr : PkgMgr) {lib : List Char}
    {e : List Char × (PkgMgr → Option (List Char))} {pkg : List Char}
    (hfind : LIB_TO_PKG.find? (fun e2 => isSubstring e2.1 lib) = some e)
    (hpkg : e.2 mgr = some pkg) :
    ∀ (ms : List (List Char)) (acc : List (List Char)), lib ∈ ms →
      pkg ∈ ms.foldl (depStep mgr) acc := by
  intro ms
  induction ms with
  | nil => intro acc h; exact absurd h (List.not_mem_nil _)
  | cons m ms2 ih =>
    intro acc h
    rcases List.mem_cons.mp h with rfl | h2
    · exact mem_foldl_depStep mgr ms2 _ (mem_depStep_insert mgr acc lib hfind hpkg)
    · exact ih _ h2

/-- C6 counterexample: the `LIB_TO_PKG` table of deps.py has no row whose
key is contained in `libzvbi.so.0 => not found` (its keys are `libluajit`
and the four boost keys), so for that missing-library list the installable
package set is empty under every package-manager family — it does not
resolve to a mapped package name. -/
theorem c6_counterexample_zvbi_unmapped :
    (LIB_TO_PKG.find? (fun e => isSubstring e.1 zvbiLib)).isNone = true
    ∧ packagesToInstall [zvbiLib] PkgMgr.apt = []
    ∧ packagesToInstall [zvbiLib] PkgMgr.yum = []
    ∧ packagesToInstall [zvbiLib] PkgMgr.pacman = []
    ∧ packagesToInstall [zvbiLib] PkgMgr.apk = [] := by decide

/-- C6 (amended): the dependency lookup takes, for each missing library,
the first `LIB_TO_PKG` row whose key is a substring of the library name;
when that row maps the active manager to a package name, the name is in
the deduplicated installation set. The set is duplicate-free, and the
concrete example holds for a library the table covers (e.g.
`libluajit-…`), while `libzvbi.so.0` matches no row and yields the empty
set. -/
theorem c6_amended_first_match_lookup (missing : List (List Char)) (mgr : PkgMgr) :
    (packagesToInstall missing mgr).Nodup
    ∧ ∀ lib ∈ missing, ∀ e : List Char × (PkgMgr → Option (List Char)),
        ∀ pkg : List Char,
          LIB_TO_PKG.find? (fun e2 => isSubstring e2.1 lib) = some e →
          e.2 mgr = some pkg →
          pkg ∈ packagesToInstall missing mgr := by
  constructor
  · exact nodup_foldl_depStep mgr missing [] List.nodup_nil
  · intro lib hlib e pkg hfind hpkg
    exact mem_packages_aux mgr hfind hpkg missing [] hlib

/-- C6 amended, instantiated: `libluajit-5.1.so.2 => not found` resolves to
the apt package `libluajit-5.1-2` of the table's first matching row. -/
theorem c6_amended_first_match_lookup_witness :
    (packagesToInstall [luajitLib] PkgMgr.apt).Nodup
    ∧ ['l', 'i', 'b', 'l', 'u', 'a', 'j', 'i', 't', '-', '5', '.', '1', '-', '2']
        ∈ packagesToInstall [luajitLib] PkgMgr.apt :=
  ⟨(c6_amended_first_match_lookup [luajitLib] PkgMgr.apt).1,
   (c6_amended_first_match_lookup [luajitLib] PkgMgr.apt).2 luajitLib (by simp)
     (keyLibluajit, pkgsLibluajit) _ rfl rfl⟩

/-- C7: when no missing library contains any table key, the installable set
is empty, the function reports every missing library (the line-72 listing)
together with the manual-installation notice, and returns `False` without
attempting an install. -/
theorem c7_unmatched_libraries_manual (missing : List (List Char)) (mgr : PkgMgr)
    (confirmInstall installOk : Bool) (hne : missing ≠ [])
    (hnomatch : ∀ lib ∈ missing, ∀ e ∈ LIB_TO_PKG, isSubstring e.1 lib = false) :
    packagesToInstall missing mgr = []
    ∧ check_server_dependencies missing (some mgr) confirmInstall installOk
        = ⟨false, [], missing, true⟩ := by
  have hfind : ∀ lib ∈ missing,
      LIB_TO_PKG.find? (fun e => isSubstring e.1 lib) = none := by
    intro lib hlib
    rw [List.find?_eq_none]
    intro e he
    simp [hnomatch lib hlib e he]
  have hempty : ∀ (ms : List (List Char)),
      (∀ lib ∈ ms, LIB_TO_PKG.find? (fun e => isSubstring e.1 lib) = none) →
      ∀ acc, ms.foldl (depStep mgr) acc = acc := by
    intro ms
    induction ms with
    | nil => intro _ acc; rfl
    | cons m ms2 ih =>
      intro hm acc
      rw [List.foldl_cons,
        show depStep mgr acc m = acc from by rw [depStep, hm m (by simp)]]
      exact ih (fun lib hl => hm lib (by simp [hl])) acc
  have h0 : packagesToInstall missing mgr = [] := by
    rw [packagesToInstall, hempty missing hfind []]
  have hie : missing.isEmpty = false := by
    cases missing with
    | nil => exact absurd rfl hne
    | cons a as => rfl
  refine ⟨h0, ?_⟩
  rw [check_server_dependencies, hie, h0]
  rfl

/-- C7, instantiated at the unmatched library `libzvbi.so.0 => not found`
under the apt family. -/
theorem c7_unmatched_libraries_manual_witness :
    packagesToInstall [zvbiLib] PkgMgr.apt = []
    ∧ check_server_dependencies [zvbiLib] (some PkgMgr.apt) false false
        = ⟨false, [], [zvbiLib], true⟩ :=
  c7_unmatched_libraries_manual [zvbiLib] PkgMgr.apt false false (by decide)
    (by decide)

theorem sublist_passFromData (s : SysSnapshot) (u : UserChoices) (sa : Bool) :
    (passFromData s u sa).1.Sublist [Remedy.data] := by
  rw [passFromData]
  split
  · split
    · exact List.Sublist.refl _
    · exact List.Sublist.refl _
  · exact List.nil_sublist _

theorem sublist_passFromEngine (s : SysSnapshot) (u : UserChoices) (sa : Bool) :
    (passFromEngine s u sa).1.Sublist [Remedy.engine, Remedy.data] := by
  rw [passFromEngine]
  split
  · split
    · exact (List.nil_sublist _).cons₂ _
    · exact (sublist_passFromData s u sa).cons₂ _
  · exact (sublist_passFromData s u sa).cons _

theorem sublist_passFromFlatpak (s : SysSnapshot) (u : UserChoices) (sa : Bool) :
    (passFromFlatpak s u sa).1.Sublist
      [Remedy.flatpak, Remedy.engine, Remedy.data] := by
  rw [passFromFlatpak]
  split
  · exact (List.nil_sublist _).cons₂ _
  · exact (sublist_passFromEngine s u sa).cons _

/-- C8: within one pass of the client health-check loop, the remediation
prompts emitted — missing system libraries, missing Flatpak, missing
engine, unlinked data files — form a sublist of the fixed priority order
`[libs, flatpak, engine, data]`: each fires at most once and a later
remediation never precedes an earlier applicable one. -/
theorem c8_remediation_priority_order (s : SysSnapshot) (u : UserChoices)
    (setupAvail : Bool) :
    (run_system_check_pass s u setupAvail).1.Sublist
      [Remedy.libs, Remedy.flatpak, Remedy.engine, Remedy.data] := by
  rw [run_system_check_pass]
  split
  · split
    · split
      · exact (List.nil_sublist _).cons₂ _
      · split
        · exact (sublist_passFromFlatpak s u setupAvail).cons₂ _
        · exact (List.nil_sublist _).cons₂ _
    · split
      · exact (sublist_passFromFlatpak s u setupAvail).cons₂ _
      · exact (List.nil_sublist _).cons₂ _
  · exact (sublist_passFromFlatpak s u setupAvail).cons _

/-- C9: every environment-check predicate degrades to its negative value
when its underlying subprocess fails instead of propagating: a failed or
non-zero `ldd` yields an empty missing-library list, a missing tailscale
binary or failing systemctl-and-status probes yield `false`, and a failed
UDP bind yields `false` (port not free). -/
theorem c9_checks_degrade (binFound : Bool) (rc : Int) (hrc : rc ≠ 0)
    (outLines : List (List Char)) (sysctl : Except Unit (List Char))
    (status : Except Unit Int) :
    check_dependencies binFound (Except.error ()) = []
    ∧ check_dependencies binFound (Except.ok ⟨rc, outLines⟩) = []
    ∧ is_tailscale_running false sysctl status = false
    ∧ is_tailscale_running true (Except.error ()) (Except.error ()) = false
    ∧ is_port_free (Except.error ()) = false := by
  refine ⟨?_, ?_, ?_, ?_, ?_⟩
  · cases binFound <;> rfl
  · cases binFound with
    | false => rfl
    | true =>
      have hc : ({ exitCode := rc, outLines := outLines } : LddRun).exitCode ≠ 0 := hrc
      rw [check_dependencies, if_neg (by simp), if_pos hc]
  · rfl
  · rfl
  · rfl

/-- C9, instantiated: a failed ldd run, an ldd exit code 1, missing and
unreachable tailscale, and a failed bind all yield the negative value. -/
theorem c9_checks_degrade_witness :
    check_dependencies true (Except.error ()) = []
    ∧ check_dependencies true (Except.ok ⟨1, []⟩) = []
    ∧ is_tailscale_running false (Except.error ()) (Except.error ()) = false
    ∧ is_tailscale_running true (Except.error ()) (Except.error ()) = false
    ∧ is_port_free (Except.error ()) = false :=
  c9_checks_degrade true 1 (by decide) [] (Except.error ()) (Except.error ())

theorem candidateHasData_iff (o : Option (Except Unit (List Char))) :
    candidateHasData o = true
      ↔ ∃ c, o = some (Except.ok c) ∧ isSubstring dataQuote c = true := by
  match o with
  | none => simp [candidateHasData]
  | some (.error e) => simp [candidateHasData]
  | some (.ok c) => simp [candidateHasData]

/-- C10: `check_data_files` reports `config_linked = true` exactly when one
of the two candidate config files exists, reads successfully and contains
the substring `data="`; and the result does not depend on the stored data
path at all — the config content is never compared against it. -/
theorem c10_config_linked_iff (storedPath : Option (List Char × Bool))
    (flatpakCfg standardCfg : Option (Except Unit (List Char))) :
    ((check_data_files storedPath flatpakCfg standardCfg).2 = true
      ↔ ((∃ c, flatpakCfg = some (Except.ok c) ∧ isSubstring dataQuote c = true)
          ∨ (∃ c, standardCfg = some (Except.ok c) ∧ isSubstring dataQuote c = true)))
    ∧ ∀ sp2, (check_data_files sp2 flatpakCfg standardCfg).2
        = (check_data_files storedPath flatpakCfg standardCfg).2 := by
  constructor
  · rw [show (check_data_files storedPath flatpakCfg standardCfg).2
        = (candidateHasData flatpakCfg || candidateHasData standardCfg) from rfl,
      Bool.or_eq_true, candidateHasData_iff, candidateHasData_iff]
  · intro sp2
    rfl

end TES3MPEasy
